import Mathlib

/-!
Formal model of the HTML structural parser of `legislatie-just-ro-parser`
(`src/leropa/parser/`).  Python strings are modelled as `List Char`;
BeautifulSoup tags as a finite tree type; each helper of
`src/leropa/parser/utils.py` and the driver `parse_html` of
`src/leropa/parser/parse_html.py` is translated into an executable
definition, and the stated properties are proved about those definitions.
-/

namespace Leropa

/-- Python strings are modelled as lists of characters. -/
abbrev Str := List Char

/-- The whitespace class used by Python's `\s` regex class and `str.strip`
(restricted to the characters that can occur in the modelled documents). -/
def isWs (c : Char) : Bool :=
  c == ' ' || c == '\t' || c == '\n' || c == '\r' || c == '\x0b' || c == '\x0c'

/-- The punctuation class `[,.;:!?\)]` of `_normalize_whitespace`. -/
def isPunct (c : Char) : Bool :=
  c == ',' || c == '.' || c == ';' || c == ':' || c == '!' || c == '?' || c == ')'

/-- Models `re.sub(r"\s+", " ", text)`: every maximal run of whitespace is
replaced by a single space.  The boolean flag records whether the previous
character belonged to a whitespace run that has already emitted its space. -/
def collapseAux : Bool → Str → Str
  | _, [] => []
  | prevWs, c :: rest =>
    if isWs c then
      if prevWs then collapseAux true rest else ' ' :: collapseAux true rest
    else c :: collapseAux false rest

/-- `re.sub(r"\s+", " ", text)`. -/
def collapseWs (l : Str) : Str := collapseAux false l

/-- Removal of a trailing whitespace run, the right half of `str.strip()`. -/
def dropTrailWs : Str → Str
  | [] => []
  | c :: rest =>
    let r := dropTrailWs rest
    if r.isEmpty && isWs c then [] else c :: r

/-- Python `str.strip()`: drop leading and trailing whitespace. -/
def pyStrip (l : Str) : Str := dropTrailWs (l.dropWhile isWs)

/-- Whether the first non-whitespace character of `l` is one of the
punctuation characters. -/
def nextNonWsIsPunct (l : Str) : Bool :=
  match l.dropWhile isWs with
  | [] => false
  | p :: _ => isPunct p

/-- Models `re.sub(r"\s+([,.;:!?\)])", r"\1", text)`: a whitespace character
is deleted exactly when the next non-whitespace character after it is one of
the punctuation characters (each match of the pattern is a maximal whitespace
run directly followed by a punctuation character, replaced by that
character). -/
def rmWsBeforePunct : Str → Str
  | [] => []
  | c :: rest =>
    if isWs c && nextNonWsIsPunct rest then rmWsBeforePunct rest
    else c :: rmWsBeforePunct rest

/-- `_normalize_whitespace` of `src/leropa/parser/utils.py`: collapse
consecutive whitespace, strip, and remove whitespace before punctuation. -/
def normalizeWhitespace (l : Str) : Str :=
  rmWsBeforePunct (pyStrip (collapseWs l))

/-- No two adjacent whitespace characters. -/
def noAdjWs : Str → Bool
  | a :: b :: rest => (!(isWs a && isWs b)) && noAdjWs (b :: rest)
  | _ => true

/-- The first character, when present, is not whitespace. -/
def noLeadWs : Str → Bool
  | [] => true
  | c :: _ => !isWs c

/-- The last character, when present, is not whitespace. -/
def noTrailWs : Str → Bool
  | [] => true
  | [c] => !isWs c
  | _ :: rest => noTrailWs rest

/-- No whitespace character directly followed by a punctuation character. -/
def noWsBeforePunct : Str → Bool
  | a :: b :: rest => (!(isWs a && isPunct b)) && noWsBeforePunct (b :: rest)
  | _ => true

theorem isPunct_not_isWs {c : Char} (h : isPunct c = true) : isWs c = false := by
  simp only [isPunct, Bool.or_eq_true, beq_iff_eq] at h
  rcases h with ((((((h | h) | h) | h) | h) | h) | h) <;> subst h <;> decide

theorem isWs_space : isWs ' ' = true := by decide

theorem noAdjWs_cons_iff {a : Char} {t : Str} :
    noAdjWs (a :: t) = true ↔
      ((∀ b, t.head? = some b → (isWs a && isWs b) = false) ∧ noAdjWs t = true) := by
  cases t with
  | nil => simp [noAdjWs]
  | cons b r =>
    simp only [noAdjWs, Bool.and_eq_true, Bool.not_eq_true', List.head?_cons]
    constructor
    · rintro ⟨h1, h2⟩
      exact ⟨fun x hx => by cases hx; exact h1, h2⟩
    · rintro ⟨h1, h2⟩
      exact ⟨h1 b rfl, h2⟩

theorem noAdjWs_tail {a : Char} {t : Str} (h : noAdjWs (a :: t) = true) :
    noAdjWs t = true :=
  (noAdjWs_cons_iff.mp h).2

theorem noWsBeforePunct_cons_iff {a : Char} {t : Str} :
    noWsBeforePunct (a :: t) = true ↔
      ((∀ b, t.head? = some b → (isWs a && isPunct b) = false) ∧
        noWsBeforePunct t = true) := by
  cases t with
  | nil => simp [noWsBeforePunct]
  | cons b r =>
    simp only [noWsBeforePunct, Bool.and_eq_true, Bool.not_eq_true', List.head?_cons]
    constructor
    · rintro ⟨h1, h2⟩
      exact ⟨fun x hx => by cases hx; exact h1, h2⟩
    · rintro ⟨h1, h2⟩
      exact ⟨h1 b rfl, h2⟩

/-- Every whitespace character in the output of `collapseAux` is a space. -/
theorem collapseAux_ws_space {c : Char} :
    ∀ (l : Str) (b : Bool), c ∈ collapseAux b l → isWs c = true → c = ' ' := by
  intro l
  induction l with
  | nil => intro b h; simp [collapseAux] at h
  | cons d rest ih =>
    intro b hc hws
    simp only [collapseAux] at hc
    by_cases hd : isWs d = true
    · simp only [hd, if_true] at hc
      cases b with
      | true => exact ih true (by simpa using hc) hws
      | false =>
        simp only [Bool.false_eq_true, if_false] at hc
        rcases List.mem_cons.mp hc with h' | h'
        · exact h'
        · exact ih true h' hws
    · simp only [Bool.not_eq_true] at hd
      simp only [hd, Bool.false_eq_true, if_false] at hc
      rcases List.mem_cons.mp hc with h' | h'
      · subst h'; rw [hd] at hws; cases hws
      · exact ih false h' hws

/-- The output of `collapseAux` with the flag set starts with a
non-whitespace character. -/
theorem noLeadWs_collapseAux_true :
    ∀ l : Str, noLeadWs (collapseAux true l) = true := by
  intro l
  induction l with
  | nil => rfl
  | cons d rest ih =>
    simp only [collapseAux]
    by_cases hd : isWs d = true
    · simpa [hd] using ih
    · simp only [Bool.not_eq_true] at hd
      simp [hd, noLeadWs]

/-- The output of `collapseAux` has no two adjacent whitespace characters. -/
theorem noAdjWs_collapseAux :
    ∀ (l : Str) (b : Bool), noAdjWs (collapseAux b l) = true := by
  intro l
  induction l with
  | nil => intro b; rfl
  | cons d rest ih =>
    intro b
    simp only [collapseAux]
    by_cases hd : isWs d = true
    · simp only [hd, if_true]
      cases b with
      | true => exact ih true
      | false =>
        simp only [Bool.false_eq_true, if_false]
        refine noAdjWs_cons_iff.mpr ⟨fun x hx => ?_, ih true⟩
        have hlead := noLeadWs_collapseAux_true rest
        cases hcol : collapseAux true rest with
        | nil => rw [hcol] at hx; cases hx
        | cons y ys =>
          rw [hcol] at hx
          simp only [List.head?_cons, Option.some.injEq] at hx
          subst hx
          rw [hcol] at hlead
          simp only [noLeadWs, Bool.not_eq_true'] at hlead
          simp [hlead]
    · simp only [Bool.not_eq_true] at hd
      simp only [hd, Bool.false_eq_true, if_false]
      exact noAdjWs_cons_iff.mpr ⟨fun x _ => by simp [hd], ih false⟩

theorem mem_dropWhile {c : Char} {p : Char → Bool} :
    ∀ l : Str, c ∈ l.dropWhile p → c ∈ l := by
  intro l
  induction l with
  | nil => intro h; simpa using h
  | cons d rest ih =>
    intro h
    rw [List.dropWhile_cons] at h
    by_cases hd : p d = true
    · simp only [hd, if_true] at h
      exact List.mem_cons_of_mem _ (ih h)
    · simp only [hd, if_false] at h
      exact h

theorem noAdjWs_dropWhile {p : Char → Bool} :
    ∀ l : Str, noAdjWs l = true → noAdjWs (l.dropWhile p) = true := by
  intro l
  induction l with
  | nil => intro h; simpa using h
  | cons d rest ih =>
    intro h
    rw [List.dropWhile_cons]
    by_cases hd : p d = true
    · simp only [hd, if_true]
      exact ih (noAdjWs_tail h)
    · simp only [hd, if_false]
      exact h

theorem noLeadWs_dropWhile_isWs :
    ∀ l : Str, noLeadWs (l.dropWhile isWs) = true := by
  intro l
  induction l with
  | nil => rfl
  | cons d rest ih =>
    rw [List.dropWhile_cons]
    by_cases hd : isWs d = true
    · simpa [hd] using ih
    · simp only [Bool.not_eq_true] at hd
      simp [hd, noLeadWs]

theorem mem_dropTrailWs {c : Char} :
    ∀ l : Str, c ∈ dropTrailWs l → c ∈ l := by
  intro l
  induction l with
  | nil => intro h; simpa [dropTrailWs] using h
  | cons d rest ih =>
    intro h
    simp only [dropTrailWs] at h
    by_cases hcond : ((dropTrailWs rest).isEmpty && isWs d) = true
    · simp only [hcond, if_true] at h
      cases h
    · simp only [hcond, Bool.false_eq_true, if_false] at h
      rcases List.mem_cons.mp h with h' | h'
      · exact h' ▸ List.mem_cons_self _ _
      · exact List.mem_cons_of_mem _ (ih h')

/-- When `dropTrailWs` returns a non-empty list, its head is the input's
head. -/
theorem dropTrailWs_head {l : Str} (h : dropTrailWs l ≠ []) :
    (dropTrailWs l).head? = l.head? := by
  cases l with
  | nil => rfl
  | cons d rest =>
    simp only [dropTrailWs] at h ⊢
    by_cases hcond : ((dropTrailWs rest).isEmpty && isWs d) = true
    · simp only [hcond, if_true] at h; exact absurd rfl h
    · simp [hcond]

theorem noAdjWs_dropTrailWs :
    ∀ l : Str, noAdjWs l = true → noAdjWs (dropTrailWs l) = true := by
  intro l
  induction l with
  | nil => intro h; simpa [dropTrailWs] using h
  | cons d rest ih =>
    intro h
    simp only [dropTrailWs]
    by_cases hcond : ((dropTrailWs rest).isEmpty && isWs d) = true
    · simp [hcond, noAdjWs]
    · simp only [hcond, Bool.false_eq_true, if_false]
      refine noAdjWs_cons_iff.mpr ⟨fun x hx => ?_, ih (noAdjWs_tail h)⟩
      have hne : dropTrailWs rest ≠ [] := by
        intro hnil
        rw [hnil] at hx
        cases hx
      rw [dropTrailWs_head hne] at hx
      cases rest with
      | nil => cases hx
      | cons y ys =>
        simp only [List.head?_cons, Option.some.injEq] at hx
        subst hx
        exact (noAdjWs_cons_iff.mp h).1 y (by simp)

theorem noLeadWs_dropTrailWs {l : Str} (h : noLeadWs l = true) :
    noLeadWs (dropTrailWs l) = true := by
  by_cases hne : dropTrailWs l = []
  · simp [hne, noLeadWs]
  · have hhead := dropTrailWs_head hne
    cases hdt : dropTrailWs l with
    | nil => exact absurd hdt hne
    | cons y ys =>
      rw [hdt] at hhead
      cases l with
      | nil => cases hhead
      | cons d rest =>
        simp only [List.head?_cons, Option.some.injEq] at hhead
        subst hhead
        simpa [noLeadWs] using h

theorem noTrailWs_dropTrailWs : ∀ l : Str, noTrailWs (dropTrailWs l) = true := by
  intro l
  induction l with
  | nil => rfl
  | cons d rest ih =>
    simp only [dropTrailWs]
    by_cases hcond : ((dropTrailWs rest).isEmpty && isWs d) = true
    · simp [hcond, noTrailWs]
    · simp only [hcond, Bool.false_eq_true, if_false]
      cases hdt : dropTrailWs rest with
      | nil =>
        rw [hdt] at hcond
        simp only [List.isEmpty_nil, Bool.true_and] at hcond
        simp [noTrailWs, hcond]
      | cons y ys =>
        rw [hdt] at ih
        simpa [noTrailWs] using ih

theorem nextNonWsIsPunct_cons_ws {c : Char} {rest : Str} (h : isWs c = true) :
    nextNonWsIsPunct (c :: rest) = nextNonWsIsPunct rest := by
  simp [nextNonWsIsPunct, List.dropWhile_cons, h]

theorem nextNonWsIsPunct_cons_not_ws {c : Char} {rest : Str}
    (h : isWs c = false) : nextNonWsIsPunct (c :: rest) = isPunct c := by
  simp [nextNonWsIsPunct, List.dropWhile_cons, h]

theorem mem_rmWsBeforePunct {c : Char} :
    ∀ l : Str, c ∈ rmWsBeforePunct l → c ∈ l := by
  intro l
  induction l with
  | nil => intro h; simpa [rmWsBeforePunct] using h
  | cons d rest ih =>
    intro h
    simp only [rmWsBeforePunct] at h
    by_cases hcond : (isWs d && nextNonWsIsPunct rest) = true
    · simp only [hcond, if_true] at h
      exact List.mem_cons_of_mem _ (ih h)
    · simp only [hcond, Bool.false_eq_true, if_false] at h
      rcases List.mem_cons.mp h with h' | h'
      · exact h' ▸ List.mem_cons_self _ _
      · exact List.mem_cons_of_mem _ (ih h')

theorem rmWsBeforePunct_cons_not_ws {c : Char} {rest : Str}
    (h : isWs c = false) :
    rmWsBeforePunct (c :: rest) = c :: rmWsBeforePunct rest := by
  simp [rmWsBeforePunct, h]

/-- A list containing a non-whitespace character keeps a non-empty image
under `rmWsBeforePunct`. -/
theorem rmWsBeforePunct_ne_nil_of_nonWs :
    ∀ l : Str, (∃ x ∈ l, isWs x = false) → rmWsBeforePunct l ≠ [] := by
  intro l
  induction l with
  | nil => rintro ⟨x, hx, _⟩; cases hx
  | cons d rest ih =>
    rintro ⟨x, hx, hxws⟩
    simp only [rmWsBeforePunct]
    by_cases hcond : (isWs d && nextNonWsIsPunct rest) = true
    · simp only [hcond, if_true]
      rcases List.mem_cons.mp hx with h' | h'
      · subst h'
        rw [hxws] at hcond
        cases hcond
      · exact ih ⟨x, h', hxws⟩
    · simp [hcond]

theorem nextNonWsIsPunct_spec :
    ∀ l : Str, nextNonWsIsPunct l = true →
      ∃ x ∈ l, isWs x = false ∧ isPunct x = true := by
  intro l
  induction l with
  | nil => intro h; cases h
  | cons d rest ih =>
    intro h
    by_cases hd : isWs d = true
    · rw [nextNonWsIsPunct_cons_ws hd] at h
      obtain ⟨x, hx, hprop⟩ := ih h
      exact ⟨x, List.mem_cons_of_mem _ hx, hprop⟩
    · simp only [Bool.not_eq_true] at hd
      rw [nextNonWsIsPunct_cons_not_ws hd] at h
      exact ⟨d, List.mem_cons_self _ _, hd, h⟩

theorem rmWsBeforePunct_ne_nil :
    ∀ l : Str, l ≠ [] → rmWsBeforePunct l ≠ [] := by
  intro l
  induction l with
  | nil => intro h; exact absurd rfl h
  | cons d rest _ =>
    intro _
    simp only [rmWsBeforePunct]
    by_cases hcond : (isWs d && nextNonWsIsPunct rest) = true
    · simp only [hcond, if_true]
      rw [Bool.and_eq_true] at hcond
      obtain ⟨hws, hnn⟩ := hcond
      obtain ⟨x, hx, hxws, _⟩ := nextNonWsIsPunct_spec rest hnn
      exact rmWsBeforePunct_ne_nil_of_nonWs rest ⟨x, hx, hxws⟩
    · simp [hcond]

/-- If the first character surviving `rmWsBeforePunct` is punctuation, then
the first non-whitespace character of the input was that punctuation. -/
theorem nextNonWsIsPunct_of_rmWs_head :
    ∀ l : Str, ∀ p, (rmWsBeforePunct l).head? = some p → isPunct p = true →
      nextNonWsIsPunct l = true := by
  intro l
  induction l with
  | nil => intro p h _; cases h
  | cons d rest ih =>
    intro p h hp
    simp only [rmWsBeforePunct] at h
    by_cases hcond : (isWs d && nextNonWsIsPunct rest) = true
    · simp only [hcond, if_true] at h
      rw [Bool.and_eq_true] at hcond
      obtain ⟨hws, hnn⟩ := hcond
      rw [nextNonWsIsPunct_cons_ws hws]
      exact hnn
    · simp only [hcond, Bool.false_eq_true, if_false, List.head?_cons,
        Option.some.injEq] at h
      subst h
      have hdws : isWs d = false := isPunct_not_isWs hp
      rw [nextNonWsIsPunct_cons_not_ws hdws]
      exact hp

theorem noAdjWs_rmWsBeforePunct :
    ∀ l : Str, noAdjWs l = true → noAdjWs (rmWsBeforePunct l) = true := by
  intro l
  induction l with
  | nil => intro h; simpa [rmWsBeforePunct] using h
  | cons d rest ih =>
    intro h
    simp only [rmWsBeforePunct]
    by_cases hcond : (isWs d && nextNonWsIsPunct rest) = true
    · simp only [hcond, if_true]
      exact ih (noAdjWs_tail h)
    · simp only [hcond, Bool.false_eq_true, if_false]
      refine noAdjWs_cons_iff.mpr ⟨fun x hx => ?_, ih (noAdjWs_tail h)⟩
      by_cases hd : isWs d = true
      · cases rest with
        | nil => simp [rmWsBeforePunct] at hx
        | cons y ys =>
          have hy : (isWs d && isWs y) = false := (noAdjWs_cons_iff.mp h).1 y (by simp)
          rw [hd, Bool.true_and] at hy
          rw [rmWsBeforePunct_cons_not_ws hy] at hx
          simp only [List.head?_cons, Option.some.injEq] at hx
          subst hx
          simp [hy]
      · simp only [Bool.not_eq_true] at hd
        simp [hd]

theorem noLeadWs_rmWsBeforePunct {l : Str} (h : noLeadWs l = true) :
    noLeadWs (rmWsBeforePunct l) = true := by
  cases l with
  | nil => exact h
  | cons d rest =>
    simp only [noLeadWs, Bool.not_eq_true'] at h
    rw [rmWsBeforePunct_cons_not_ws h]
    simp [noLeadWs, h]

theorem noTrailWs_rmWsBeforePunct :
    ∀ l : Str, noTrailWs l = true → noTrailWs (rmWsBeforePunct l) = true := by
  intro l
  induction l with
  | nil => intro h; exact h
  | cons d rest ih =>
    intro h
    simp only [rmWsBeforePunct]
    by_cases hcond : (isWs d && nextNonWsIsPunct rest) = true
    · simp only [hcond, if_true]
      cases rest with
      | nil =>
        rw [Bool.and_eq_true] at hcond
        obtain ⟨_, hnn⟩ := hcond
        cases hnn
      | cons y ys => exact ih (by simpa [noTrailWs] using h)
    · simp only [hcond, Bool.false_eq_true, if_false]
      cases rest with
      | nil => simpa [rmWsBeforePunct, noTrailWs] using h
      | cons y ys =>
        have hrest : noTrailWs (y :: ys) = true := by simpa [noTrailWs] using h
        have hne := rmWsBeforePunct_ne_nil (y :: ys) (by simp)
        cases hrm : rmWsBeforePunct (y :: ys) with
        | nil => exact absurd hrm hne
        | cons z zs =>
          have := ih hrest
          rw [hrm] at this
          simpa [noTrailWs] using this

theorem noWsBeforePunct_rmWsBeforePunct :
    ∀ l : Str, noWsBeforePunct (rmWsBeforePunct l) = true := by
  intro l
  induction l with
  | nil => rfl
  | cons d rest ih =>
    simp only [rmWsBeforePunct]
    by_cases hcond : (isWs d && nextNonWsIsPunct rest) = true
    · simp only [hcond, if_true]; exact ih
    · simp only [hcond, Bool.false_eq_true, if_false]
      refine noWsBeforePunct_cons_iff.mpr ⟨fun b hb => ?_, ih⟩
      by_cases hd : isWs d = true
      · rw [hd, Bool.true_and]
        by_contra hbp
        simp only [Bool.not_eq_false] at hbp
        have := nextNonWsIsPunct_of_rmWs_head rest b hb hbp
        rw [hd, this] at hcond
        exact hcond rfl
      · simp only [Bool.not_eq_true] at hd
        simp [hd]

/-- On a string whose whitespace characters are all isolated spaces,
`collapseAux` is the identity. -/
theorem collapseAux_eq_self :
    ∀ l : Str, (∀ c ∈ l, isWs c = true → c = ' ') → noAdjWs l = true →
      collapseAux false l = l ∧ (noLeadWs l = true → collapseAux true l = l) := by
  intro l
  induction l with
  | nil => intro _ _; exact ⟨rfl, fun _ => rfl⟩
  | cons d rest ih =>
    intro hsp hadj
    have hrest := ih (fun c hc => hsp c (List.mem_cons_of_mem _ hc)) (noAdjWs_tail hadj)
    by_cases hd : isWs d = true
    · have hd' : d = ' ' := hsp d (List.mem_cons_self _ _) hd
      have hlead : noLeadWs rest = true := by
        cases rest with
        | nil => rfl
        | cons y ys =>
          have := (noAdjWs_cons_iff.mp hadj).1 y (by simp)
          rw [hd, Bool.true_and] at this
          simp [noLeadWs, this]
      constructor
      · simp only [collapseAux, hd, if_true, Bool.false_eq_true, if_false]
        rw [hrest.2 hlead, hd']
      · intro hl
        simp only [noLeadWs, Bool.not_eq_true'] at hl
        rw [hl] at hd
        cases hd
    · simp only [Bool.not_eq_true] at hd
      constructor
      · simp only [collapseAux, hd, Bool.false_eq_true, if_false]
        rw [hrest.1]
      · intro _
        simp only [collapseAux, hd, Bool.false_eq_true, if_false]
        rw [hrest.1]

theorem dropTrailWs_eq_self :
    ∀ l : Str, noTrailWs l = true → dropTrailWs l = l := by
  intro l
  induction l with
  | nil => intro _; rfl
  | cons d rest ih =>
    intro h
    cases rest with
    | nil =>
      simp only [noTrailWs, Bool.not_eq_true'] at h
      simp [dropTrailWs, h]
    | cons y ys =>
      have hrest : noTrailWs (y :: ys) = true := by simpa [noTrailWs] using h
      have hmain := ih hrest
      have hstep : dropTrailWs (d :: y :: ys) =
          (if (dropTrailWs (y :: ys)).isEmpty && isWs d then []
            else d :: dropTrailWs (y :: ys)) := rfl
      rw [hstep, hmain]
      simp

theorem pyStrip_eq_self {l : Str} (hlead : noLeadWs l = true)
    (htrail : noTrailWs l = true) : pyStrip l = l := by
  have hdrop : l.dropWhile isWs = l := by
    cases l with
    | nil => rfl
    | cons d rest =>
      simp only [noLeadWs, Bool.not_eq_true'] at hlead
      simp [List.dropWhile_cons, hlead]
  rw [pyStrip, hdrop, dropTrailWs_eq_self l htrail]

theorem rmWsBeforePunct_eq_self :
    ∀ l : Str, noWsBeforePunct l = true → noAdjWs l = true →
      rmWsBeforePunct l = l := by
  intro l
  induction l with
  | nil => intro _ _; rfl
  | cons d rest ih =>
    intro hp hadj
    have hcond : (isWs d && nextNonWsIsPunct rest) = false := by
      by_cases hd : isWs d = true
      · cases rest with
        | nil => simp [nextNonWsIsPunct]
        | cons y ys =>
          have hy : (isWs d && isWs y) = false := (noAdjWs_cons_iff.mp hadj).1 y (by simp)
          rw [hd, Bool.true_and] at hy
          have hyp : (isWs d && isPunct y) = false :=
            (noWsBeforePunct_cons_iff.mp hp).1 y (by simp)
          rw [hd, Bool.true_and] at hyp
          rw [nextNonWsIsPunct_cons_not_ws hy, hyp, Bool.and_false]
      · simp only [Bool.not_eq_true] at hd
        simp [hd]
    simp only [rmWsBeforePunct, hcond, Bool.false_eq_true, if_false]
    rw [ih (noWsBeforePunct_cons_iff.mp hp).2 (noAdjWs_tail hadj)]

/-- The structural properties of every `_normalize_whitespace` output:
whitespace only as isolated interior spaces, never before punctuation. -/
theorem normalizeWhitespace_props (l : Str) :
    (∀ c ∈ normalizeWhitespace l, isWs c = true → c = ' ') ∧
      noAdjWs (normalizeWhitespace l) = true ∧
      noLeadWs (normalizeWhitespace l) = true ∧
      noTrailWs (normalizeWhitespace l) = true ∧
      noWsBeforePunct (normalizeWhitespace l) = true := by
  unfold normalizeWhitespace pyStrip collapseWs
  refine ⟨fun c hc hws => ?_, ?_, ?_, ?_, ?_⟩
  · exact collapseAux_ws_space l false
      (mem_dropWhile _ (mem_dropTrailWs _ (mem_rmWsBeforePunct _ hc))) hws
  · exact noAdjWs_rmWsBeforePunct _
      (noAdjWs_dropTrailWs _ (noAdjWs_dropWhile _ (noAdjWs_collapseAux l false)))
  · exact noLeadWs_rmWsBeforePunct
      (noLeadWs_dropTrailWs (noLeadWs_dropWhile_isWs _))
  · exact noTrailWs_rmWsBeforePunct _ (noTrailWs_dropTrailWs _)
  · exact noWsBeforePunct_rmWsBeforePunct _

/-- `_normalize_whitespace` is a projection: its outputs are fixed points. -/
theorem normalizeWhitespace_idem (l : Str) :
    normalizeWhitespace (normalizeWhitespace l) = normalizeWhitespace l := by
  obtain ⟨hsp, hadj, hlead, htrail, hpunct⟩ := normalizeWhitespace_props l
  have h1 : collapseWs (normalizeWhitespace l) = normalizeWhitespace l :=
    (collapseAux_eq_self _ hsp hadj).1
  conv_lhs => rw [normalizeWhitespace, h1, pyStrip_eq_self hlead htrail,
    rmWsBeforePunct_eq_self _ hpunct hadj]

/-! ## The HTML tree model

BeautifulSoup tags are modelled as a finite tree: an element node carries its
tag name, its `id` attribute (empty when absent, matching `tag.get("id", "")`),
its class list (`tag.get("class", [])`) and its children; a text node carries
its string. -/

inductive Tag where
  | elem (name : Str) (idAttr : Str) (classes : List Str) (children : List Tag)
  | txt (s : Str)

/-- `tag.get("id", "")`. -/
def Tag.tagId : Tag → Str
  | .elem _ i _ _ => i
  | .txt _ => []

/-- `tag.get("class", [])`. -/
def Tag.classList : Tag → List Str
  | .elem _ _ cs _ => cs
  | .txt _ => []

def Tag.tagName : Tag → Str
  | .elem n _ _ _ => n
  | .txt _ => []

def Tag.childList : Tag → List Tag
  | .elem _ _ _ cs => cs
  | .txt _ => []

def spanName : Str := "span".data

/-- The filter `("span", class_=c)` of BeautifulSoup `find`/`find_all`. -/
def isSpanWith (c : Str) (t : Tag) : Bool :=
  t.tagName == spanName && t.classList.contains c

/-- The filter `("span", class_=[c₁, c₂])`. -/
def isSpanWithAny (cs : List Str) (t : Tag) : Bool :=
  t.tagName == spanName && cs.any (fun c => t.classList.contains c)

mutual

/-- The strings of all descendant text nodes, in document order. -/
def textPieces : Tag → List Str
  | .txt s => [s]
  | .elem _ _ _ cs => textPiecesList cs

def textPiecesList : List Tag → List Str
  | [] => []
  | t :: ts => textPieces t ++ textPiecesList ts

end

/-- `tag.get_text(sep, strip=True)`: strip each descendant string, skip the
ones that become empty, join with the separator. -/
def getTextStrip (sep : Str) (t : Tag) : Str :=
  List.intercalate sep
    (((textPieces t).map pyStrip).filter (fun s => !s.isEmpty))

mutual

/-- All descendants of a tag (excluding the tag itself), in document
(preorder) order — the search space of BeautifulSoup `find`/`find_all`. -/
def descendants : Tag → List Tag
  | .txt _ => []
  | .elem _ _ _ cs => descendantsList cs

def descendantsList : List Tag → List Tag
  | [] => []
  | t :: ts => t :: (descendants t ++ descendantsList ts)

end

/-- `tag.find_all(...)` over a predicate. -/
def findAll (p : Tag → Bool) (t : Tag) : List Tag :=
  (descendants t).filter p

/-- `tag.find(...)` over a predicate: first matching descendant. -/
def findFirst (p : Tag → Bool) (t : Tag) : Option Tag :=
  ((descendants t).filter p).head?

mutual

/-- `tag.find_all(p)` followed by `.extract()` on every match: returns the
tag with all matching descendants removed, together with the extracted
elements in document order, each itself cleaned of nested matches (a nested
match is extracted from its already-extracted ancestor and listed after
it, exactly as the sequential `extract()` loop leaves them). -/
def extractAllTag (p : Tag → Bool) : Tag → Tag × List Tag
  | .txt s => (.txt s, [])
  | .elem n i c cs =>
    let r := extractAllList p cs
    (.elem n i c r.1, r.2)

def extractAllList (p : Tag → Bool) : List Tag → List Tag × List Tag
  | [] => ([], [])
  | t :: ts =>
    let r1 := extractAllTag p t
    let r2 := extractAllList p ts
    if p t then (r2.1, r1.1 :: (r1.2 ++ r2.2))
    else (r1.1 :: r2.1, r1.2 ++ r2.2)

end

/-- The tree with all matching descendants removed (`decompose` loop). -/
def removeAll (p : Tag → Bool) (t : Tag) : Tag :=
  (extractAllTag p t).1

mutual

/-- `tag.find(p)` followed by `.extract()`: removes the first matching
descendant (document order), leaving the tree unchanged when there is
none. -/
def removeFirstTag (p : Tag → Bool) : Tag → Tag × Bool
  | .txt s => (.txt s, false)
  | .elem n i c cs =>
    let r := removeFirstList p cs
    (.elem n i c r.1, r.2)

def removeFirstList (p : Tag → Bool) : List Tag → List Tag × Bool
  | [] => ([], false)
  | t :: ts =>
    if p t then (ts, true)
    else
      let r1 := removeFirstTag p t
      if r1.2 then (r1.1 :: ts, true)
      else
        let r2 := removeFirstList p ts
        (t :: r2.1, r2.2)

end

/-- Direct children that are `span` elements:
`tag.find_all("span", recursive=False)`. -/
def directSpans (t : Tag) : List Tag :=
  t.childList.filter (fun c => c.tagName == spanName)

/-! ## The regular expressions of `_parse_note_details`

Each Python `re.search` call is modelled by a matcher that attempts the
pattern at one position, lifted to leftmost search by `scanOption`.  The
patterns contain no constructs whose backtracking can change the outcome
relative to the greedy/lazy strategies implemented here (argued in the
individual doc comments). -/

/-- `re.search`: try the position matcher at every suffix, leftmost first. -/
def scanOption {α : Type} (f : Str → Option α) : Str → Option α
  | [] => f []
  | c :: rest =>
    match f (c :: rest) with
    | some r => some r
    | none => scanOption f rest

/-- The `DD[.-]MM[.-]YYYY` digit block of the `la` date pattern
(`\d{2}[.-]\d{2}[.-]\d{4}`). -/
def matchDateDigits : Str → Option Str
  | d1 :: d2 :: s1 :: d3 :: d4 :: s2 :: d5 :: d6 :: d7 :: d8 :: _ =>
    if d1.isDigit && d2.isDigit && (s1 == '.' || s1 == '-') &&
        d3.isDigit && d4.isDigit && (s2 == '.' || s2 == '-') &&
        d5.isDigit && d6.isDigit && d7.isDigit && d8.isDigit then
      some [d1, d2, s1, d3, d4, s2, d5, d6, d7, d8]
    else none
  | _ => none

/-- One position of `re.search(r"la (\d{2}[.-]\d{2}[.-]\d{4})", text)`. -/
def tryLaDateAt : Str → Option Str
  | 'l' :: 'a' :: ' ' :: t => matchDateDigits t
  | _ => none

/-- `a fost` after at least one whitespace character (`\s+a fost`); since
`a` is not whitespace only the maximal whitespace run can precede it. -/
def wsThenAFost (l : Str) : Bool :=
  let ws := l.takeWhile isWs
  !ws.isEmpty && List.isPrefixOf "a fost".data (l.drop ws.length)

/-- The lazy group `(.*?)` of the subject pattern: the shortest newline-free
prefix whose remainder matches `\s+a fost`. -/
def lazyGroupBeforeAFost : Str → Option Str
  | [] => none
  | c :: rest =>
    if wsThenAFost (c :: rest) then some []
    else if c == '\n' then none
    else (lazyGroupBeforeAFost rest).map (fun g => c :: g)

/-- The greedy `\s*` after the comma, backtracking from the maximal run. -/
def trySubjectWs (rest : Str) : Nat → Option Str
  | 0 => lazyGroupBeforeAFost rest
  | k + 1 =>
    match lazyGroupBeforeAFost (rest.drop (k + 1)) with
    | some g => some g
    | none => trySubjectWs rest k

/-- One position of `re.search(r",\s*(.*?)\s+a fost", text)`. -/
def trySubjectAt : Str → Option Str
  | ',' :: rest => trySubjectWs rest (rest.takeWhile isWs).length
  | _ => none

/-- Romanian lower-casing for the `re.IGNORECASE` matches: ASCII letters
plus the five diacritic letters of the month-name class. -/
def toLowerRo (c : Char) : Char :=
  if c == 'Ă' then 'ă'
  else if c == 'Â' then 'â'
  else if c == 'Î' then 'î'
  else if c == 'Ș' then 'ș'
  else if c == 'Ț' then 'ț'
  else c.toLower

/-- Case-insensitive literal match at the current position. -/
def ciStartsWith : Str → Str → Bool
  | [], _ => true
  | _ :: _, [] => false
  | p :: ps, c :: cs => toLowerRo p == toLowerRo c && ciStartsWith ps cs

/-- The class `[a-zăâîșț]` under `re.IGNORECASE`. -/
def isMonthChar (c : Char) : Bool :=
  let d := toLowerRo c
  ('a' ≤ d && d ≤ 'z') || d == 'ă' || d == 'â' || d == 'î' || d == 'ș' || d == 'ț'

/-- `[0-9]{1,2} [a-zăâîșț]+ [0-9]{4}` with a fixed day-digit count. -/
def tryDayMonthYear (n : Nat) (l : Str) : Option Str :=
  let day := l.take n
  if day.length == n && day.all Char.isDigit then
    match l.drop n with
    | ' ' :: t =>
      let mon := t.takeWhile isMonthChar
      if mon.isEmpty then none
      else
        match t.drop mon.length with
        | ' ' :: y =>
          let yr := y.take 4
          if yr.length == 4 && yr.all Char.isDigit then
            some (day ++ [' '] ++ mon ++ [' '] ++ yr)
          else none
        | _ => none
    | _ => none
  else none

/-- The date group shared by the law and gazette patterns; `{1,2}` is
greedy, so two day digits are attempted before one. -/
def matchDayMonthYear (l : Str) : Option Str :=
  match tryDayMonthYear 2 l with
  | some g => some g
  | none => tryDayMonthYear 1 l

/-- `\s*(\d+)\s+din\s+(<day month-name year>)` after the `nr.` literal.
Each greedy piece is followed by a token it cannot begin, so only the
maximal repetitions can succeed. -/
def matchNrDinTail (l : Str) : Option (Str × Str) :=
  let l1 := l.dropWhile isWs
  let num := l1.takeWhile Char.isDigit
  if num.isEmpty then none
  else
    let l2 := l1.drop num.length
    let ws1 := l2.takeWhile isWs
    if ws1.isEmpty then none
    else
      let l3 := l2.drop ws1.length
      if ciStartsWith "din".data l3 then
        let l4 := l3.drop 3
        let ws2 := l4.takeWhile isWs
        if ws2.isEmpty then none
        else (matchDayMonthYear (l4.drop ws2.length)).map (fun g => (num, g))
      else none

/-- One position of the `LEGEA nr. ...` search (`re.IGNORECASE`). -/
def tryLawAt (l : Str) : Option (Str × Str) :=
  let lit := "LEGEA nr.".data
  if ciStartsWith lit l then matchNrDinTail (l.drop lit.length) else none

/-- One position of the `MONITORUL OFICIAL nr. ...` search
(`re.IGNORECASE`). -/
def tryMonitorAt (l : Str) : Option (Str × Str) :=
  let lit := "MONITORUL OFICIAL nr.".data
  if ciStartsWith lit l then matchNrDinTail (l.drop lit.length) else none

/-- One position of
`'înlocuirea sintagmei "([^"]+)" cu sintagma "([^"]+)"'` (`re.IGNORECASE`). -/
def tryReplaceAt (l : Str) : Option (Str × Str) :=
  let lit1 := "înlocuirea sintagmei \"".data
  let lit2 := "\" cu sintagma \"".data
  if ciStartsWith lit1 l then
    let t := l.drop lit1.length
    let g1 := t.takeWhile (fun c => !(c == '"'))
    if g1.isEmpty then none
    else if ciStartsWith lit2 (t.drop g1.length) then
      let t2 := t.drop (g1.length + lit2.length)
      let g2 := t2.takeWhile (fun c => !(c == '"'))
      if g2.isEmpty then none
      else
        match t2.drop g2.length with
        | '"' :: _ => some (g1, g2)
        | _ => none
    else none
  else none

/-- The result dictionary of `_parse_note_details`. -/
structure NoteFields where
  date : Option Str := none
  subject : Option Str := none
  law_number : Option Str := none
  law_date : Option Str := none
  monitor_number : Option Str := none
  monitor_date : Option Str := none
  replaced : Option Str := none
  replacement : Option Str := none
deriving DecidableEq

/-- `_parse_note_details` of `src/leropa/parser/utils.py`: independent
regex searches over the normalized note text, each field defaulting to
`none`; the subject is searched only when the date matched. -/
def _parse_note_details (text : Str) : NoteFields :=
  let date := scanOption tryLaDateAt text
  let subject :=
    match date with
    | some _ => scanOption trySubjectAt text
    | none => none
  let law := scanOption tryLawAt text
  let monitor := scanOption tryMonitorAt text
  let repl := scanOption tryReplaceAt text
  { date := date
    subject := subject
    law_number := law.map Prod.fst
    law_date := law.map Prod.snd
    monitor_number := monitor.map Prod.fst
    monitor_date := monitor.map Prod.snd
    replaced := repl.map Prod.fst
    replacement := repl.map Prod.snd }

/-! ## The data model (`attrs` classes of `src/leropa/parser/`) -/

structure Note where
  note_id : Str
  text : Str
  date : Option Str := none
  subject : Option Str := none
  law_number : Option Str := none
  law_date : Option Str := none
  monitor_number : Option Str := none
  monitor_date : Option Str := none
  replaced : Option Str := none
  replacement : Option Str := none
deriving DecidableEq

structure SubParagraph where
  sub_id : Str
  label : Str
  text : Str
deriving DecidableEq

structure Paragraph where
  par_id : Str
  text : Str
  label : Option Str := none
  subparagraphs : List SubParagraph := []
  notes : List Note := []
deriving DecidableEq

structure Article where
  article_id : Str
  label : Str
  full_text : Str
  paragraphs : List Paragraph := []
  notes : List Note := []
deriving DecidableEq

/-- Element-class vocabulary used by the paragraph and article extraction. -/
def cS_NTA : Str := "S_NTA".data

def cS_NTA_TTL : Str := "S_NTA_TTL".data

def cS_NTA_PAR : Str := "S_NTA_PAR".data

def cS_PAR : Str := "S_PAR".data

def cS_ALN : Str := "S_ALN".data

def cS_ALN_TTL : Str := "S_ALN_TTL".data

def cS_ALN_BDY : Str := "S_ALN_BDY".data

def cS_LIT : Str := "S_LIT".data

def cS_LIT_TTL : Str := "S_LIT_TTL".data

def cS_LIT_BDY : Str := "S_LIT_BDY".data

def cS_LIN : Str := "S_LIN".data

def cS_LIN_TTL : Str := "S_LIN_TTL".data

def cS_LIN_BDY : Str := "S_LIN_BDY".data

def cS_LIT_SHORT : Str := "S_LIT_SHORT".data

def cS_LIN_SHORT : Str := "S_LIN_SHORT".data

def cS_ART : Str := "S_ART".data

def cS_ART_TTL : Str := "S_ART_TTL".data

def cS_ART_BDY : Str := "S_ART_BDY".data

/-! ## Note extraction -/

/-- `_note_from_tag`: note id, normalized text, regex-mined fields. -/
def _note_from_tag (t : Tag) : Note :=
  let text := normalizeWhitespace (getTextStrip [' '] t)
  let d := _parse_note_details text
  { note_id := t.tagId
    text := text
    date := d.date
    subject := d.subject
    law_number := d.law_number
    law_date := d.law_date
    monitor_number := d.monitor_number
    monitor_date := d.monitor_date
    replaced := d.replaced
    replacement := d.replacement }

/-- `_extract_article_note`: remove the first `S_NTA_TTL` sub-element (the
note title) before extracting the note. -/
def _extract_article_note (t : Tag) : Note :=
  _note_from_tag (removeFirstTag (isSpanWith cS_NTA_TTL) t).1

/-! ## Sub-paragraph and paragraph extraction -/

/-- `_subparagraph_from_tag`: label and body depend on the list-item kind
(`S_LIN` dash items versus `S_LIT` lettered items). -/
def _subparagraph_from_tag (t : Tag) : SubParagraph :=
  let item_classes := t.classList
  let label_tag :=
    if item_classes.contains cS_LIN then findFirst (isSpanWith cS_LIN_TTL) t
    else findFirst (isSpanWith cS_LIT_TTL) t
  let bdy :=
    if item_classes.contains cS_LIN then findFirst (isSpanWith cS_LIN_BDY) t
    else findFirst (isSpanWith cS_LIT_BDY) t
  let text :=
    match bdy with
    | some b => normalizeWhitespace (getTextStrip [' '] b)
    | none => normalizeWhitespace (getTextStrip [' '] t)
  let label :=
    match label_tag with
    | some lt => getTextStrip [] lt
    | none => []
  { sub_id := t.tagId, label := label, text := text }

/-- `_parse_paragraph_tag`: pull out nested list items, then nested notes,
then read label and body text.  Returns the paragraph and the extracted
list-item tags. -/
def _parse_paragraph_tag (t : Tag) : Paragraph × List Tag :=
  let ext := extractAllTag (isSpanWithAny [cS_LIN, cS_LIT]) t
  let tClean := ext.1
  let list_items := ext.2
  let classes := tClean.classList
  let r :=
    if classes.contains cS_ALN then
      match findFirst (isSpanWith cS_ALN_BDY) tClean with
      | some bdy =>
        let bext := extractAllTag (isSpanWith cS_PAR) bdy
        let notes := bext.2.map _note_from_tag
        let text := normalizeWhitespace (getTextStrip [' '] bext.1)
        let label :=
          match findFirst (isSpanWith cS_ALN_TTL) tClean with
          | some lt => some (getTextStrip [] lt)
          | none => none
        (text, label, notes)
      | none =>
        let text := normalizeWhitespace (getTextStrip [' '] tClean)
        let label :=
          match findFirst (isSpanWith cS_ALN_TTL) tClean with
          | some lt => some (getTextStrip [] lt)
          | none => none
        (text, label, ([] : List Note))
    else
      let pext := extractAllTag (isSpanWith cS_PAR) tClean
      let notes := pext.2.map _note_from_tag
      let text := normalizeWhitespace (getTextStrip [' '] pext.1)
      (text, none, notes)
  ({ par_id := t.tagId, text := r.1, label := r.2.1, notes := r.2.2 },
    list_items)

/-- `re.match(r"^(\([0-9]+\)|[a-z]\))", text)`: recover a label prefix,
returning the label and the remainder of the text. -/
def matchItemLabel (l : Str) : Option (Str × Str) :=
  match l with
  | '(' :: t =>
    let ds := t.takeWhile Char.isDigit
    if ds.isEmpty then none
    else
      match t.drop ds.length with
      | ')' :: rest => some ('(' :: (ds ++ [')']), rest)
      | _ =>
        match l with
        | a :: ')' :: rest =>
          if 'a' ≤ a && a ≤ 'z' then some ([a, ')'], rest) else none
        | _ => none
  | a :: ')' :: rest =>
    if 'a' ≤ a && a ≤ 'z' then some ([a, ')'], rest) else none
  | _ => none

/-- `re.match(r"^\([0-9]+\)$", label)`: a pure numeric-parenthesized
label. -/
def isNumericParenLabel (l : Str) : Bool :=
  match l with
  | '(' :: t =>
    let ds := t.takeWhile Char.isDigit
    !ds.isEmpty && t.drop ds.length == [')']
  | _ => false

/-- Python `str.lstrip()`. -/
def lstrip (l : Str) : Str := l.dropWhile isWs

/-- `re.match(r"^(\([0-9]+\))", text)` of `_parse_aln_body`. -/
def matchNumericLabel (l : Str) : Option (Str × Str) :=
  match l with
  | '(' :: t =>
    let ds := t.takeWhile Char.isDigit
    if ds.isEmpty then none
    else
      match t.drop ds.length with
      | ')' :: rest => some ('(' :: (ds ++ [')']), rest)
      | _ => none
  | _ => none

/-- State of the sibling scan in `_get_paragraphs`.  Python's `paragraphs`
list holds references to shared mutable `Paragraph` objects and
`current_par` is another reference to one of them; the model uses an arena
`store` of paragraph objects and keeps both the paragraph list and the
current pointer as arena indices, so that mutation through the current
pointer is visible through the list exactly as in the source. -/
structure ParState where
  store : List Paragraph
  parRefs : List Nat
  notes : List Note
  current : Option Nat

def initParState : ParState :=
  { store := [], parRefs := [], notes := [], current := none }

/-- Fallback paragraph for arena lookups; never reached for the indices the
scan produces (they always point into the store). -/
def defaultParagraph : Paragraph := { par_id := [], text := [] }

/-- Allocate a paragraph, append it to the paragraph list and make it
current (`paragraphs.append(new_par)` on a fresh object). -/
def allocParagraph (p : Paragraph) (s : ParState) : ParState :=
  { s with
    store := s.store ++ [p]
    parRefs := s.parRefs ++ [s.store.length]
    current := some s.store.length }

/-- The notes, recovered label and body text of an `S_LIT` span (the
extraction part of `_parse_lettered_span`, before the paragraph /
sub-paragraph decision): notes pulled out of the body, text from the body
(or the whole tag), label from `S_LIT_TTL` or recovered from a leading
`(<digits>)` / `<letter>)` pattern of the text. -/
def letteredParse (t : Tag) : List Note × Str × Str :=
  let label_tag := findFirst (isSpanWith cS_LIT_TTL) t
  let bdyOpt := findFirst (isSpanWith cS_LIT_BDY) t
  let br :=
    match bdyOpt with
    | some b =>
      let bext := extractAllTag (isSpanWith cS_PAR) b
      (bext.2.map _note_from_tag,
        normalizeWhitespace (getTextStrip [' '] bext.1))
    | none => ([], normalizeWhitespace (getTextStrip [' '] t))
  let label0 :=
    match label_tag with
    | some lt => getTextStrip [] lt
    | none => []
  let lr :=
    if label0.isEmpty then
      match matchItemLabel br.2 with
      | some g => (g.1, lstrip g.2)
      | none => (label0, br.2)
    else (label0, br.2)
  (br.1, lr.1, lr.2)

/-- The new-paragraph condition of `_parse_lettered_span` (line 238):
the label matches `^\([0-9]+\)$` and there is no current paragraph or the
current paragraph carries a label. -/
def newParagraphCond (label : Str) (s : ParState) : Bool :=
  isNumericParenLabel label &&
    (match s.current with
      | none => true
      | some r => (s.store.getD r defaultParagraph).label.isSome)

/-- `_parse_lettered_span`: interpret an `S_LIT` span met directly in the
article body as a new paragraph or as a sub-paragraph of the current one. -/
def _parse_lettered_span (t : Tag) (s : ParState) : ParState :=
  let lp := letteredParse t
  let notes_in_par := lp.1
  let label := lp.2.1
  let text := lp.2.2
  if newParagraphCond label s then
    allocParagraph
      { par_id := t.tagId, text := text, label := some label,
        notes := notes_in_par } s
  else
    match s.current with
    | some r =>
      let p := s.store.getD r defaultParagraph
      { s with
        store := s.store.set r
          { p with
            subparagraphs := p.subparagraphs ++
              [{ sub_id := t.tagId, label := label, text := text }] } }
    | none =>
      -- Stray `S_LIT` elements become paragraphs without labels.
      allocParagraph
        { par_id := t.tagId, text := text, label := none,
          notes := notes_in_par } s

/-- `_parse_aln_body`: a standalone `S_ALN_BDY` span becomes a paragraph
with its embedded notes removed and a leading `(<digits>)` label split
off. -/
def _parse_aln_body (t : Tag) : Paragraph :=
  let ext := extractAllTag (isSpanWith cS_PAR) t
  let text0 := normalizeWhitespace (getTextStrip [' '] ext.1)
  match matchNumericLabel text0 with
  | some g =>
    { par_id := t.tagId, text := lstrip g.2, label := some g.1 }
  | none => { par_id := t.tagId, text := text0, label := none }

/-- One step of the sibling scan of `_get_paragraphs`, dispatching on the
class of the direct child. -/
def _get_paragraphs_step (s : ParState) (child : Tag) : ParState :=
  let classes := child.classList
  if classes.contains cS_NTA then
    { s with notes := s.notes ++ [_extract_article_note child] }
  else if classes.contains cS_PAR || classes.contains cS_ALN then
    let pr := _parse_paragraph_tag child
    let par :=
      { pr.1 with
        subparagraphs := pr.1.subparagraphs ++
          pr.2.map _subparagraph_from_tag }
    allocParagraph par s
  else if classes.contains cS_LIT then
    _parse_lettered_span child s
  else if classes.contains cS_ALN_BDY then
    allocParagraph (_parse_aln_body child) s
  else s

/-- `_get_paragraphs`: scan the direct `span` children of the article body,
returning the paragraph list (dereferenced through the arena) and the
article-level notes. -/
def _get_paragraphs (body : Tag) : List Paragraph × List Note :=
  let s := (directSpans body).foldl _get_paragraphs_step initParState
  (s.parRefs.map (fun r => s.store.getD r defaultParagraph), s.notes)

/-! ## Article assembly -/

/-- The sub-paragraph part of the full text:
`f"{label}{sub.text}".strip()` with `label = f"{sub.label} "` when the
sub-paragraph label is non-empty. -/
def subPartText (sub : SubParagraph) : Str :=
  let lab := if sub.label.isEmpty then [] else sub.label ++ [' ']
  pyStrip (lab ++ sub.text)

/-- The parts a paragraph contributes to the full text: its label when
truthy, its text, then each sub-paragraph part. -/
def paragraphParts (p : Paragraph) : List Str :=
  (match p.label with
    | some l => if l.isEmpty then [] else [l]
    | none => []) ++ [p.text] ++ p.subparagraphs.map subPartText

/-- `_full_text_from_paragraphs`: whitespace-normalized space-join of the
paragraph parts. -/
def _full_text_from_paragraphs (ps : List Paragraph) : Str :=
  normalizeWhitespace (List.intercalate [' '] (ps.map paragraphParts).flatten)

/-- `re.sub(r"^Articolul\s+", "", label)`. -/
def stripArticolul (label : Str) : Str :=
  let lit := "Articolul".data
  if List.isPrefixOf lit label then
    let rest := label.drop lit.length
    let ws := rest.takeWhile isWs
    if ws.isEmpty then label else rest.drop ws.length
  else label

/-- `_parse_article`: build an `Article` from an `S_ART` tag, or `none`
(the skip signal) when the `S_ART_BDY` body sub-element is absent. -/
def _parse_article (t : Tag) : Option Article :=
  let article_id := t.tagId
  let label0 :=
    match findFirst (isSpanWith cS_ART_TTL) t with
    | some lt => getTextStrip [] lt
    | none => []
  let label := stripArticolul label0
  match findFirst (isSpanWith cS_ART_BDY) t with
  | none => none
  | some body =>
    let body2 := removeAll (isSpanWithAny [cS_LIT_SHORT, cS_LIN_SHORT]) body
    let gp := _get_paragraphs body2
    some
      { article_id := article_id, label := label,
        full_text := _full_text_from_paragraphs gp.1,
        paragraphs := gp.1, notes := gp.2 }

/-! ## Containers and the chapter registry -/

inductive Section where
  | mk (section_id : Str) (title : Str) (description : Option Str)
      (level : Int) (subsections : List Section) (articles : List Str)

structure Chapter where
  chapter_id : Str
  title : Str
  description : Option Str := none
  sections : List Section := []
  articles : List Str := []

structure Title where
  title_id : Str
  title : Str
  description : Option Str := none
  chapters : List Chapter := []
  sections : List Section := []
  articles : List Str := []

structure Book where
  book_id : Str
  title : Str
  description : Option Str := none
  titles : List Title := []
  chapters : List Chapter := []
  sections : List Section := []
  articles : List Str := []

/-- `chapters.get(chapter_id)` on the registry dictionary. -/
def regGet (reg : List (Str × Chapter)) (k : Str) : Option Chapter :=
  match reg.find? (fun e => e.1 == k) with
  | some e => some e.2
  | none => none

structure HistoryEntry where
  ver_id : Str
  date : Str
deriving DecidableEq

/-- One history link: its `href` attribute (`none` when absent), its visible
text as extracted by `link.get_text(strip=True)`, and its `title`
attribute (`link.get("title", "")`). -/
structure Anchor where
  href : Option Str := none
  text : Str := []
  title : Str := []

/-- One position of `re.search(r"/(\d+)(?:\?|$)", href)`: a slash, then
digits, then `?` or the end of the string.  Only the maximal digit run can
be followed by `?` or the end, so no backtracking is needed. -/
def tryVerAt : Str → Option Str
  | '/' :: t =>
    let ds := t.takeWhile Char.isDigit
    if ds.isEmpty then none
    else
      match t.drop ds.length with
      | [] => some ds
      | '?' :: _ => some ds
      | _ => none
  | _ => none

def searchVer (l : Str) : Option Str := scanOption tryVerAt l

/-- One position of `re.search(r"(\d{2}\.\d{2}\.\d{4})", s)`. -/
def tryDotDateAt : Str → Option Str
  | d1 :: d2 :: '.' :: d3 :: d4 :: '.' :: d5 :: d6 :: d7 :: d8 :: _ =>
    if d1.isDigit && d2.isDigit && d3.isDigit && d4.isDigit &&
        d5.isDigit && d6.isDigit && d7.isDigit && d8.isDigit then
      some [d1, d2, '.', d3, d4, '.', d5, d6, d7, d8]
    else none
  | _ => none

def searchDotDate (l : Str) : Option Str := scanOption tryDotDateAt l

/-- The body of the history loop of `parse_html` (lines 95-122): skip links
without an href, without a version id in the URL, or without a date in
either the visible text or the title attribute. -/
def parseHistoryAnchor (a : Anchor) : Option HistoryEntry :=
  match a.href with
  | none => none
  | some href =>
    if href.isEmpty then none
    else
      match searchVer href with
      | none => none
      | some ver =>
        let source :=
          if (searchDotDate a.text).isSome then a.text else a.title
        match searchDotDate source with
        | none => none
        | some d => some { ver_id := ver, date := d }

def parseHistory (anchors : List Anchor) : List HistoryEntry :=
  anchors.filterMap parseHistoryAnchor

structure DocumentInfo where
  source : Str
  ver_id : Str
  title : Option Str := none
  description : Option Str := none
  keywords : Option Str := none
  history : List HistoryEntry := []
  prev_ver : Option Str := none
  next_ver : Option Str := none
deriving DecidableEq

/-- The parsed document as seen by `parse_html`: the head metadata (the
`content` attributes of the named `<meta>` tags and the stripped `<title>`
text), the anchors of the `istoric_fa` history container, and the root
nodes of the markup in which the `S_ART` spans live. -/
structure Soup where
  metaTitle : Option Str := none
  metaDescription : Option Str := none
  metaKeywords : Option Str := none
  htmlTitle : Option Str := none
  historyDiv : Option (List Anchor) := none
  roots : List Tag := []

inductive PyExc where
  | typeError
deriving DecidableEq

structure ParseResult where
  document : DocumentInfo
  articles : List Article
  books : List Book

def urlBase : Str := "https://legislatie.just.ro/Public/DetaliiDocument/".data

/-- The history list of a soup (`[]` when the `istoric_fa` container is
absent). -/
def historyOf (soup : Soup) : List HistoryEntry :=
  match soup.historyDiv with
  | some anchors => parseHistory anchors
  | none => []

/-- All `S_ART` spans of the document, in document order. -/
def artTagsOf (soup : Soup) : List Tag :=
  (descendantsList soup.roots).filter (isSpanWith cS_ART)

/-- `parse_html` of `src/leropa/parser/parse_html.py`.

The per-article loop calls
`_ensure_section(art_tag, sections, chapter, title_obj, book)` (line 163)
with five arguments, while `_ensure_section` of
`src/leropa/parser/utils.py` (line 508) declares six required parameters
`(art_tag, sections, section_titles, chapter, title, book)`; likewise
`_ensure_subsection(art_tag, subsections, section)` (line 205) passes three
arguments to a four-parameter function.  In Python the first of these calls
raises `TypeError` at argument binding, before any function body runs, for
every article that survives the body check.  The registries built before
the raise never escape the function, so the loop is modelled by its
observable behaviour: articles whose body is missing are skipped, and the
first article with a body raises. -/
def parse_html (soup : Soup) (ver_id : Str) : Except PyExc ParseResult :=
  let title :=
    match soup.metaTitle with
    | some c => if c.isEmpty then soup.htmlTitle else some c
    | none => soup.htmlTitle
  let history := historyOf soup
  match (artTagsOf soup).find? (fun t => (_parse_article t).isSome) with
  | some _ => .error .typeError
  | none =>
    .ok
      { document :=
          { source := urlBase ++ ver_id
            ver_id := ver_id
            title := title
            description := soup.metaDescription
            keywords := soup.metaKeywords
            history := history
            prev_ver :=
              match history with
              | [] => none
              | e :: _ => some e.ver_id }
        articles := []
        books := [] }

/-! ## Concrete sample documents (mirroring `src/tests/test_parser.py`) -/

def sArtId : Str := "id_art1".data

def sArtTtlId : Str := "id_art1_ttl".data

def sArtBdyId : Str := "id_art1_bdy".data

def sParId : Str := "id_par1".data

def sArtTitleText : Str := "Articolul 1".data

def sParText : Str := "First paragraph.".data

/-- A minimal article with a body: one plain `S_PAR` paragraph. -/
def sampleArt : Tag :=
  Tag.elem spanName sArtId [cS_ART]
    [Tag.elem spanName sArtTtlId [cS_ART_TTL] [Tag.txt sArtTitleText],
     Tag.elem spanName sArtBdyId [cS_ART_BDY]
       [Tag.elem spanName sParId [cS_PAR] [Tag.txt sParText]]]

def sArt2Id : Str := "id_art2".data

/-- An article lacking its `S_ART_BDY` body sub-element. -/
def artNoBody : Tag :=
  Tag.elem spanName sArt2Id [cS_ART]
    [Tag.elem spanName sArtTtlId [cS_ART_TTL] [Tag.txt sArtTitleText]]

def ver123 : Str := "123".data

/-- A document with a single well-formed article. -/
def sampleSoup : Soup := { roots := [sampleArt] }

/-- A document where a body-less article precedes a well-formed sibling. -/
def soupMixed : Soup := { roots := [artNoBody, sampleArt] }

/-- A document whose only article lacks its body. -/
def soupOnlyBodyless : Soup := { roots := [artNoBody] }

def litText1 : Str := "(1) Intro paragraph.".data

def litText2 : Str := "a) First item.".data

def litText3 : Str := "b) Second item.".data

def litText4 : Str := "(2) Second paragraph.".data

def litId1 : Str := "id_lit_par1".data

def litId2 : Str := "id_lit_sub1".data

def litId3 : Str := "id_lit_sub2".data

def litId4 : Str := "id_lit_par2".data

def litBdyId1 : Str := "id_lit_par1_bdy".data

def litBdyId2 : Str := "id_lit_sub1_bdy".data

def litBdyId3 : Str := "id_lit_sub2_bdy".data

def litBdyId4 : Str := "id_lit_par2_bdy".data

/-- A lettered list item with an empty `S_LIT_TTL` label sub-element and the
given body text. -/
def mkLit (iid bid s : Str) : Tag :=
  Tag.elem spanName iid [cS_LIT]
    [Tag.elem spanName [] [cS_LIT_TTL] [],
     Tag.elem spanName bid [cS_LIT_BDY] [Tag.txt s]]

def c3BodyId : Str := "id_art_lit_bdy".data

/-- The four-lettered-items article body of the C3 example. -/
def c3Body : Tag :=
  Tag.elem spanName c3BodyId [cS_ART_BDY]
    [mkLit litId1 litBdyId1 litText1, mkLit litId2 litBdyId2 litText2,
     mkLit litId3 litBdyId3 litText3, mkLit litId4 litBdyId4 litText4]

def c3ArtId : Str := "id_art_lit".data

/-- The C3 example body wrapped in an article element. -/
def c3Art : Tag := Tag.elem spanName c3ArtId [cS_ART] [c3Body]

/-- An article body whose only child is a lettered item with a
non-numeric label and no preceding paragraph (the stray-item case). -/
def strayBody : Tag :=
  Tag.elem spanName c3BodyId [cS_ART_BDY] [mkLit litId2 litBdyId2 litText2]

def noteText : Str := "(la 01-01-2020, Alin. (2) al art. 287 a fost modificat de art. IX din LEGEA nr. 60 din 10 aprilie 2012, publicată în MONITORUL OFICIAL nr. 255 din 17 aprilie 2012, prin înlocuirea sintagmei \"serviciul de stare civilă\" cu sintagma \"serviciul public comunitar local de evidență a persoanelor\".)".data

def expDate : Str := "01-01-2020".data

def expSubject : Str := "Alin. (2) al art. 287".data

def expLawNumber : Str := "60".data

def expLawDate : Str := "10 aprilie 2012".data

def expMonitorNumber : Str := "255".data

def expMonitorDate : Str := "17 aprilie 2012".data

def expReplaced : Str := "serviciul de stare civilă".data

def expReplacement : Str := "serviciul public comunitar local de evidență a persoanelor".data

def histHref : Str := "~/../../../Public/DetaliiDocument/120341".data

def histTitle : Str := "Consolidarea din 02.07.2010".data

def histText : Str := "02.07.2010".data

def histVer : Str := "120341".data

def histDate : Str := "02.07.2010".data

/-- The history anchor of the C6 example. -/
def histAnchor : Anchor :=
  { href := some histHref, text := histText, title := histTitle }

/-- A document with a history list and no articles. -/
def soupWithHistory : Soup := { historyDiv := some [histAnchor] }

def notaWord : Str := "Notă".data

def embNoteId : Str := "id_note_emb".data

def embParId : Str := "id_par_emb".data

def embBdyId : Str := "id_par_emb_bdy".data

def embText : Str := "Embedded.".data

/-- An embedded note (an `S_PAR` span inside an `S_ALN_BDY` body) that
carries an `S_NTA_TTL` note-title sub-element. -/
def embNote : Tag :=
  Tag.elem spanName embNoteId [cS_PAR]
    [Tag.elem spanName [] [cS_NTA_TTL] [Tag.txt notaWord], Tag.txt embText]

/-- A numbered paragraph whose body contains `embNote`. -/
def embPar : Tag :=
  Tag.elem spanName embParId [cS_ALN]
    [Tag.elem spanName embBdyId [cS_ALN_BDY]
      [Tag.txt sParText, embNote]]

def artNoteId : Str := "id_note_art".data

def artNoteText : Str := "Article note.".data

/-- An article-level note (`S_NTA`) with a `S_NTA_TTL` title and a body. -/
def artNoteTag : Tag :=
  Tag.elem spanName artNoteId [cS_NTA]
    [Tag.elem spanName [] [cS_NTA_TTL] [Tag.txt notaWord],
     Tag.elem spanName [] [cS_NTA_PAR] [Tag.txt artNoteText]]

def notaEmbText : Str := "Notă Embedded.".data

def noDateStr : Str := "text fara data".data

/-! ## Claim theorems -/

/-- C1: the claim states that `parse_html` never raises and in particular
parses a document containing an article with a body without raising.  The
code contradicts this (and its own test suite): `parse_html`
(`parse_html.py` line 163) calls the six-parameter `_ensure_section` of
`utils.py` with five arguments, so Python raises `TypeError` for every
article that has a body.  This theorem evaluates the model at such a
document: one well-formed article, and the parse fails. -/
theorem c1_parse_html_raises_on_article_with_body :
    (_parse_article sampleArt).isSome = true ∧
      parse_html sampleSoup ver123 = Except.error PyExc.typeError := by
  constructor
  · decide
  · rfl

/-- C7: the claim states that an article lacking its body sub-element is
skipped (`None`, no exception) and that sibling articles are still parsed
and produced.  The skip half holds, but the sibling half fails on the code:
the per-article loop raises `TypeError` (the `_ensure_section` arity
mismatch of C1) on the sibling that does have a body, so no article is ever
produced.  The theorem evaluates both halves: the body-less article yields
the skip signal and a document with only body-less articles parses to an
empty article list, but a document with a body-less article next to a
well-formed sibling raises instead of producing the sibling. -/
theorem c7_missing_body_behavior :
    _parse_article artNoBody = none ∧
      (∃ r, parse_html soupOnlyBodyless ver123 = Except.ok r ∧
        r.articles = []) ∧
      parse_html soupMixed ver123 = Except.error PyExc.typeError := by
  refine ⟨by decide, ⟨_, rfl, rfl⟩, rfl⟩

/-- C9: `_normalize_whitespace` is idempotent; equivalently its output is a
fixed point: no run of two or more whitespace characters, no leading or
trailing whitespace, and no whitespace directly before one of the
punctuation characters `,.;:!?)`. -/
theorem c9_normalize_whitespace_idempotent (l : Str) :
    normalizeWhitespace (normalizeWhitespace l) = normalizeWhitespace l ∧
      noAdjWs (normalizeWhitespace l) = true ∧
      noLeadWs (normalizeWhitespace l) = true ∧
      noTrailWs (normalizeWhitespace l) = true ∧
      noWsBeforePunct (normalizeWhitespace l) = true := by
  obtain ⟨_, hadj, hlead, htrail, hpunct⟩ := normalizeWhitespace_props l
  exact ⟨normalizeWhitespace_idem l, hadj, hlead, htrail, hpunct⟩

/-- C4: field extraction from the example amendment note: each field is
mined by its own independent regex (conjuncts two to five tie every field
of the result to its regex), all fields default to `none` on no match, the
subject is only attempted when the date matched, and on the example text
the seven claimed fields take exactly the claimed values. -/
theorem c4_note_field_extraction :
    _parse_note_details noteText =
      { date := some expDate, subject := some expSubject,
        law_number := some expLawNumber, law_date := some expLawDate,
        monitor_number := some expMonitorNumber,
        monitor_date := some expMonitorDate,
        replaced := some expReplaced,
        replacement := some expReplacement } ∧
      (∀ t : Str, (_parse_note_details t).date = scanOption tryLaDateAt t) ∧
      (∀ t : Str,
        (_parse_note_details t).law_number =
            (scanOption tryLawAt t).map Prod.fst ∧
          (_parse_note_details t).law_date =
            (scanOption tryLawAt t).map Prod.snd) ∧
      (∀ t : Str,
        (_parse_note_details t).monitor_number =
            (scanOption tryMonitorAt t).map Prod.fst ∧
          (_parse_note_details t).monitor_date =
            (scanOption tryMonitorAt t).map Prod.snd) ∧
      (∀ t : Str,
        (_parse_note_details t).replaced =
            (scanOption tryReplaceAt t).map Prod.fst ∧
          (_parse_note_details t).replacement =
            (scanOption tryReplaceAt t).map Prod.snd) ∧
      (∀ t : Str, scanOption tryLaDateAt t = none →
        (_parse_note_details t).date = none ∧
          (_parse_note_details t).subject = none) := by
  refine ⟨by decide, fun t => rfl, fun t => ⟨rfl, rfl⟩, fun t => ⟨rfl, rfl⟩,
    fun t => ⟨rfl, rfl⟩, fun t h => ?_⟩
  unfold _parse_note_details
  rw [h]
  exact ⟨rfl, rfl⟩

/-- Witness for C4: the no-match default at a concrete date-less string. -/
theorem c4_note_field_extraction_witness :
    scanOption tryLaDateAt noDateStr = none ∧
      (_parse_note_details noDateStr).date = none ∧
      (_parse_note_details noDateStr).subject = none := by
  refine ⟨by decide, ?_, ?_⟩
  · exact (c4_note_field_extraction.2.2.2.2.2 noDateStr (by decide)).1
  · exact (c4_note_field_extraction.2.2.2.2.2 noDateStr (by decide)).2

/-- C8 counterexample: a note embedded inside a paragraph body is parsed by
`_note_from_tag` without the note-title stripping (only the article-level
path `_extract_article_note` strips `S_NTA_TTL`), so an embedded note that
carries a `S_NTA_TTL` title keeps the word `Notă` in its text —
contradicting the claim that the title is stripped for embedded notes
too. -/
theorem c8_embedded_note_counterexample :
    ((_parse_paragraph_tag embPar).1.notes.map Note.text) = [notaEmbText] ∧
      notaWord <:+: notaEmbText := by decide

/-- C8 amended: the note-title sub-element is stripped before text
extraction for article-level notes only (`_extract_article_note` removes
the first `S_NTA_TTL` descendant before delegating to `_note_from_tag`,
so the example article-level note's text is free of `Notă`), while notes
embedded inside paragraph or sub-item bodies go through `_note_from_tag`
directly, whose text is the normalized text of the whole tag, title
included. -/
theorem c8_note_title_strip_amended :
    (_extract_article_note artNoteTag).text = artNoteText ∧
      (∀ t : Tag, _extract_article_note t =
        _note_from_tag (removeFirstTag (isSpanWith cS_NTA_TTL) t).1) ∧
      (∀ t : Tag, (_note_from_tag t).text =
        normalizeWhitespace (getTextStrip [' '] t)) := by
  exact ⟨by decide, fun t => rfl, fun t => rfl⟩

def lab1 : Str := "(1)".data

def lab2 : Str := "(2)".data

def labA : Str := "a)".data

def labB : Str := "b)".data

def txtIntro : Str := "Intro paragraph.".data

def txtFirst : Str := "First item.".data

def txtSecond : Str := "Second item.".data

def txtSecondPar : Str := "Second paragraph.".data

/-- C3 counterexample: the claim's "exactly when" direction fails.  A
lettered item whose recovered label is `a)` (not numeric-parenthesized)
scanned with no current paragraph still starts a new Paragraph — the
defensive fallback of `_parse_lettered_span` appends a label-less
paragraph, even though the claimed condition is false. -/
theorem c3_stray_item_counterexample :
    (letteredParse (mkLit litId2 litBdyId2 litText2)).2.1 = labA ∧
      isNumericParenLabel labA = false ∧
      (_get_paragraphs strayBody).1 =
        [{ par_id := litId2, text := txtFirst, label := none }] := by decide

/-- C3 amended: on the four-item example the extractor produces exactly the
two claimed Paragraphs with the two SubParagraphs on the first; and the
decision rule holds in the amended form: a lettered item starts a new
*labelled* Paragraph exactly under the claimed condition (numeric label
and no current paragraph or a labelled current one); when the condition
fails it is appended as a SubParagraph of the current paragraph if one
exists, and otherwise it still starts a new Paragraph, but with a null
label (the defensive fallback). -/
theorem c3_new_paragraph_decision :
    (_get_paragraphs c3Body).1 =
      [{ par_id := litId1, text := txtIntro, label := some lab1,
         subparagraphs := [{ sub_id := litId2, label := labA, text := txtFirst },
           { sub_id := litId3, label := labB, text := txtSecond }] },
       { par_id := litId4, text := txtSecondPar, label := some lab2 }] ∧
      (∀ (t : Tag) (s : ParState),
        isNumericParenLabel (letteredParse t).2.1 = true →
        (s.current = none ∨ ∃ r, s.current = some r ∧
          (s.store.getD r defaultParagraph).label.isSome = true) →
        (_parse_lettered_span t s).parRefs.length = s.parRefs.length + 1 ∧
          (_parse_lettered_span t s).store.getLast? = some
            { par_id := t.tagId, text := (letteredParse t).2.2,
              label := some (letteredParse t).2.1,
              notes := (letteredParse t).1 }) ∧
      (∀ (t : Tag) (s : ParState) (r : Nat), s.current = some r →
        (isNumericParenLabel (letteredParse t).2.1 = false ∨
          (s.store.getD r defaultParagraph).label = none) →
        (_parse_lettered_span t s).parRefs = s.parRefs ∧
          (_parse_lettered_span t s).store = s.store.set r
            { s.store.getD r defaultParagraph with
              subparagraphs :=
                (s.store.getD r defaultParagraph).subparagraphs ++
                  [{ sub_id := t.tagId, label := (letteredParse t).2.1,
                     text := (letteredParse t).2.2 }] }) ∧
      (∀ (t : Tag) (s : ParState), s.current = none →
        isNumericParenLabel (letteredParse t).2.1 = false →
        (_parse_lettered_span t s).parRefs.length = s.parRefs.length + 1 ∧
          (_parse_lettered_span t s).store.getLast? = some
            { par_id := t.tagId, text := (letteredParse t).2.2,
              label := none, notes := (letteredParse t).1 }) := by
  refine ⟨by decide, ?_, ?_, ?_⟩
  · intro t s hnum hcur
    have hcond : newParagraphCond (letteredParse t).2.1 s = true := by
      unfold newParagraphCond
      rw [hnum, Bool.true_and]
      rcases hcur with hc | ⟨r, hc, hlab⟩
      · rw [hc]
      · rw [hc]; exact hlab
    simp only [_parse_lettered_span, hcond, if_true, allocParagraph]
    exact ⟨by simp, by simp [List.getLast?_concat]⟩
  · intro t s r hc hfail
    have hcond : newParagraphCond (letteredParse t).2.1 s = false := by
      unfold newParagraphCond
      rw [hc]
      rcases hfail with hf | hf
      · rw [hf, Bool.false_and]
      · show (isNumericParenLabel (letteredParse t).2.1 &&
          (s.store.getD r defaultParagraph).label.isSome) = false
        rw [hf]
        simp
    simp only [_parse_lettered_span, hcond, Bool.false_eq_true, if_false, hc]
    exact ⟨trivial, trivial⟩
  · intro t s hc hnum
    have hcond : newParagraphCond (letteredParse t).2.1 s = false := by
      unfold newParagraphCond
      rw [hnum, Bool.false_and]
    simp only [_parse_lettered_span, hcond, Bool.false_eq_true, if_false, hc,
      allocParagraph]
    exact ⟨by simp, by simp [List.getLast?_concat]⟩

/-- A scan state holding one labelled paragraph, current. -/
def c3WitnessState : ParState :=
  { store := [{ par_id := litId1, text := txtIntro, label := some lab1 }],
    parRefs := [0], notes := [], current := some 0 }

/-- Witness for C3: the amended decision rule applied at the fourth item of
the example (numeric label `(2)` with a labelled current paragraph). -/
theorem c3_new_paragraph_decision_witness :
    isNumericParenLabel (letteredParse (mkLit litId4 litBdyId4 litText4)).2.1 =
        true ∧
      (_parse_lettered_span (mkLit litId4 litBdyId4 litText4)
          c3WitnessState).parRefs.length = 1 + 1 := by
  constructor
  · decide
  · have hlen : c3WitnessState.parRefs.length = 1 := rfl
    rw [← hlen]
    exact (c3_new_paragraph_decision.2.1 (mkLit litId4 litBdyId4 litText4)
      c3WitnessState (by decide) (Or.inr ⟨0, rfl, by decide⟩)).1

def defaultArticle : Article := { article_id := [], label := [], full_text := [] }

def c3ArticleVal : Article := (_parse_article c3Art).getD defaultArticle

/-- C5: for every parsed article the full text equals the
whitespace-normalized space-join of the paragraph parts (label when truthy,
text, then each sub-paragraph's label-plus-text), computed from the
already-extracted paragraph structure — `_parse_article` stores
`_full_text_from_paragraphs paragraphs`, never a re-scrape of the raw
body. -/
theorem c5_full_text_from_structure (t : Tag) (a : Article)
    (h : _parse_article t = some a) :
    a.full_text = _full_text_from_paragraphs a.paragraphs ∧
      _full_text_from_paragraphs a.paragraphs =
        normalizeWhitespace
          (List.intercalate [' ']
            (a.paragraphs.map paragraphParts).flatten) := by
  unfold _parse_article at h
  cases hf : findFirst (isSpanWith cS_ART_BDY) t with
  | none => rw [hf] at h; cases h
  | some body =>
    rw [hf] at h
    injection h with h
    subst h
    exact ⟨rfl, rfl⟩

set_option maxRecDepth 8000 in
/-- Witness for C5: the example article. -/
theorem c5_full_text_witness :
    _parse_article c3Art = some c3ArticleVal ∧
      c3ArticleVal.full_text =
        _full_text_from_paragraphs c3ArticleVal.paragraphs :=
  ⟨by decide,
    (c5_full_text_from_structure c3Art c3ArticleVal (by decide)).1⟩

/-- Unfolding of `parseHistoryAnchor` for anchors with an href. -/
theorem parseHistoryAnchor_eq {a : Anchor} {h : Str} (ha : a.href = some h) :
    parseHistoryAnchor a =
      (if h.isEmpty then none
        else
          match searchVer h with
          | none => none
          | some ver =>
            match searchDotDate
                (if (searchDotDate a.text).isSome then a.text
                  else a.title) with
            | none => none
            | some d => some { ver_id := ver, date := d }) := by
  unfold parseHistoryAnchor
  rw [ha]

/-- C6: history parsing.  Anchors without an href, without a trailing
numeric segment in the href, or without a `DD.MM.YYYY` date in both the
visible text and the title attribute are skipped; otherwise the entry
takes its version id from the href and its date from the visible text when
that contains a date, else from the title attribute; the example anchor
yields `HistoryEntry(ver_id="120341", date="02.07.2010")`; and in every
successful parse the document's `prev_ver` is the version id of the first
parsed history entry (`none` when the history is empty). -/
theorem c6_history_parsing :
    (∀ a : Anchor, a.href = none → parseHistoryAnchor a = none) ∧
      (∀ a : Anchor, a.href = some [] → parseHistoryAnchor a = none) ∧
      (∀ (a : Anchor) (h : Str), a.href = some h → searchVer h = none →
        parseHistoryAnchor a = none) ∧
      (∀ a : Anchor, searchDotDate a.text = none →
        searchDotDate a.title = none → parseHistoryAnchor a = none) ∧
      (∀ (a : Anchor) (h v d : Str), a.href = some h → h ≠ [] →
        searchVer h = some v → searchDotDate a.text = some d →
        parseHistoryAnchor a = some { ver_id := v, date := d }) ∧
      (∀ (a : Anchor) (h v d : Str), a.href = some h → h ≠ [] →
        searchVer h = some v → searchDotDate a.text = none →
        searchDotDate a.title = some d →
        parseHistoryAnchor a = some { ver_id := v, date := d }) ∧
      parseHistoryAnchor histAnchor =
        some { ver_id := histVer, date := histDate } ∧
      (∀ (soup : Soup) (v : Str) (r : ParseResult),
        parse_html soup v = Except.ok r →
        r.document.history = historyOf soup ∧
          r.document.prev_ver =
            (historyOf soup).head?.map HistoryEntry.ver_id) := by
  refine ⟨?_, ?_, ?_, ?_, ?_, ?_, by decide, ?_⟩
  · intro a ha
    unfold parseHistoryAnchor
    rw [ha]
  · intro a ha
    unfold parseHistoryAnchor
    rw [ha]
    simp [List.isEmpty]
  · intro a h ha hv
    rw [parseHistoryAnchor_eq ha]
    split
    · rfl
    · rw [hv]
  · intro a ht hti
    cases ha : a.href with
    | none =>
      unfold parseHistoryAnchor
      rw [ha]
    | some h =>
      rw [parseHistoryAnchor_eq ha]
      split
      · rfl
      · cases hv : searchVer h with
        | none => rfl
        | some v =>
          by_cases hc : (searchDotDate a.text).isSome = true
          · rw [ht] at hc
            simp at hc
          · rw [if_neg hc, hti]
  · intro a h v d ha hne hv hd
    rw [parseHistoryAnchor_eq ha]
    split
    · next hemp => exact absurd (List.isEmpty_iff.mp hemp) hne
    · rw [hv]
      have hc : (searchDotDate a.text).isSome = true := by rw [hd]; rfl
      rw [if_pos hc, hd]
  · intro a h v d ha hne hv ht hd
    rw [parseHistoryAnchor_eq ha]
    split
    · next hemp => exact absurd (List.isEmpty_iff.mp hemp) hne
    · rw [hv]
      have hc : ¬((searchDotDate a.text).isSome = true) := by rw [ht]; simp
      rw [if_neg hc, hd]
  · intro soup v r h
    unfold parse_html at h
    cases hfind : (artTagsOf soup).find? (fun t => (_parse_article t).isSome) with
    | some t => rw [hfind] at h; cases h
    | none =>
      rw [hfind] at h
      injection h with h
      subst h
      refine ⟨rfl, ?_⟩
      cases historyOf soup <;> simp

/-- Occurrences of a chapter id among the registry keys. -/
def countKey (reg : List (Str × Chapter)) (k : Str) : Nat :=
  reg.countP (fun e => e.1 == k)

theorem regGet_of_countKey_zero {reg : List (Str × Chapter)} {cid : Str}
    (h : countKey reg cid = 0) : regGet reg cid = none := by
  unfold countKey at h
  have hfind : List.find? (fun e => e.1 == cid) reg = none := by
    rw [List.find?_eq_none]
    intro e he
    simpa using (List.countP_eq_zero.mp h) e he
  unfold regGet
  rw [hfind]

/-- C10 invariant: the current-paragraph pointer, when set, refers to the
last element of the accumulated paragraph list and points into the
arena. -/
def curInv (s : ParState) : Prop :=
  ∀ r, s.current = some r →
    s.parRefs.getLast? = some r ∧ r < s.store.length

theorem curInv_alloc {p : Paragraph} {s : ParState} :
    curInv (allocParagraph p s) := by
  intro r h
  simp only [allocParagraph] at h
  injection h with h
  subst h
  refine ⟨?_, ?_⟩
  · simp [allocParagraph, List.getLast?_concat]
  · simp [allocParagraph]

theorem curInv_lettered {t : Tag} {s : ParState} (hinv : curInv s) :
    curInv (_parse_lettered_span t s) := by
  by_cases hc : newParagraphCond (letteredParse t).2.1 s = true
  · simp only [_parse_lettered_span, hc, if_true]
    exact curInv_alloc
  · cases hcur : s.current with
    | none =>
      simp only [_parse_lettered_span, hc, Bool.false_eq_true, if_false, hcur]
      exact curInv_alloc
    | some r =>
      simp only [_parse_lettered_span, hc, Bool.false_eq_true, if_false, hcur]
      intro r' h
      injection h with h
      subst h
      obtain ⟨ha, hb⟩ := hinv r hcur
      exact ⟨ha, by simpa using hb⟩

theorem curInv_step {s : ParState} {child : Tag} (hinv : curInv s) :
    curInv (_get_paragraphs_step s child) := by
  unfold _get_paragraphs_step
  by_cases h1 : (child.classList.contains cS_NTA) = true
  · simp only [h1, if_true]
    intro r h
    exact hinv r h
  · simp only [h1, Bool.false_eq_true, if_false]
    by_cases h2 : (child.classList.contains cS_PAR ||
        child.classList.contains cS_ALN) = true
    · simp only [h2, if_true]
      exact curInv_alloc
    · simp only [h2, Bool.false_eq_true, if_false]
      by_cases h3 : (child.classList.contains cS_LIT) = true
      · simp only [h3, if_true]
        exact curInv_lettered hinv
      · simp only [h3, Bool.false_eq_true, if_false]
        by_cases h4 : (child.classList.contains cS_ALN_BDY) = true
        · simp only [h4, if_true]
          exact curInv_alloc
        · simp only [h4, Bool.false_eq_true, if_false]
          exact hinv

theorem curInv_scan (children : List Tag) :
    ∀ s : ParState, curInv s →
      curInv (children.foldl _get_paragraphs_step s) := by
  induction children with
  | nil => intro s h; exact h
  | cons c rest ih => intro s h; exact ih _ (curInv_step h)

theorem getD_set_self {l : List Paragraph} {r : Nat} {v d : Paragraph}
    (h : r < l.length) : (l.set r v).getD r d = v := by
  unfold List.getD
  rw [List.get?_eq_getElem?, List.getElem?_set_self (by simpa using h)]
  rfl

/-- C10: after processing each direct child of the article body (every
prefix of the sibling scan), the current-paragraph pointer is `none` or
refers to the last element of the accumulated paragraph list; consequently
a SubParagraph created from a directly encountered lettered item is
appended to the paragraph the last list entry refers to — the most
recently emitted Paragraph. -/
theorem c10_current_paragraph_invariant :
    (∀ (children : List Tag) (n : Nat),
      curInv ((children.take n).foldl _get_paragraphs_step initParState)) ∧
      (∀ (t : Tag) (s : ParState) (r : Nat), curInv s → s.current = some r →
        newParagraphCond (letteredParse t).2.1 s = false →
        (_parse_lettered_span t s).parRefs = s.parRefs ∧
          (_parse_lettered_span t s).parRefs.getLast? = some r ∧
          (_parse_lettered_span t s).store.getD r defaultParagraph =
            { s.store.getD r defaultParagraph with
              subparagraphs :=
                (s.store.getD r defaultParagraph).subparagraphs ++
                  [{ sub_id := t.tagId, label := (letteredParse t).2.1,
                     text := (letteredParse t).2.2 }] }) := by
  constructor
  · intro children n
    exact curInv_scan (children.take n) initParState (fun r h => by cases h)
  · intro t s r hinv hcur hcond
    obtain ⟨hlast, hlt⟩ := hinv r hcur
    simp only [_parse_lettered_span, hcond, Bool.false_eq_true, if_false, hcur]
    exact ⟨trivial, hlast, getD_set_self hlt⟩

/-- Witness for C10: the invariant after the example scan, and the
sub-paragraph landing in the current paragraph for the second example
item. -/
theorem c10_current_paragraph_invariant_witness :
    curInv ([mkLit litId1 litBdyId1 litText1,
        mkLit litId2 litBdyId2 litText2].foldl _get_paragraphs_step
        initParState) ∧
      (_parse_lettered_span (mkLit litId2 litBdyId2 litText2)
        c3WitnessState).parRefs.getLast? = some 0 := by
  constructor
  · have h := c10_current_paragraph_invariant.1
      [mkLit litId1 litBdyId1 litText1, mkLit litId2 litBdyId2 litText2] 2
    simpa using h
  · exact (c10_current_paragraph_invariant.2
      (mkLit litId2 litBdyId2 litText2) c3WitnessState 0
      (fun r h => by
        injection h with h
        subst h
        exact ⟨rfl, by decide⟩)
      rfl (by decide)).2.1

/-- Witness for C6: the example anchor and a history-only document. -/
theorem c6_history_parsing_witness :
    searchVer histHref = some histVer ∧ histHref ≠ [] ∧
      searchDotDate histText = some histDate ∧
      parseHistoryAnchor histAnchor =
        some { ver_id := histVer, date := histDate } :=
  ⟨by decide, by decide, by decide,
    c6_history_parsing.2.2.2.2.1 histAnchor histHref histVer histDate rfl
      (by decide) (by decide) (by decide)⟩

end Leropa
